import Mathlib

namespace HigressOps

/-- JSON-like argument values carried by a tool call or stored in a plugin
configuration. The orchestration code never inspects these values; they are
routed through unchanged. -/
inductive Json where
  | null : Json
  | bool (b : Bool) : Json
  | num (n : Int) : Json
  | str (s : String) : Json
  | arr (elems : List Json) : Json
  | obj (fields : List (String × Json)) : Json

/-- One tool call emitted by the model inside an assistant message, as in the
tool_calls entries of a langchain AIMessage: an id, a tool name and the
proposed arguments. -/
structure ToolCall where
  id : String
  name : String
  args : Json

/-- One turn of the conversation state, mirroring the langchain message kinds
used by src/client.py: HumanMessage, AIMessage (with tool calls) and
ToolMessage. -/
inductive Msg where
  | human (content : String) : Msg
  | ai (content : String) (tool_calls : List ToolCall) : Msg
  | tool (tool_call_id : String) (content : String) : Msg

/-- Write operations that require human confirmation, from src/client.py. -/
def SENSITIVE_TOOLS : List String :=
  ["add_route",
   "add_service_source",
   "update_route",
   "update_request_block_plugin",
   "update_service_source"]

/-- The END sentinel of the langgraph conditional edge. -/
def END : String := "__end__"

/-- Models langgraph tools_condition as used by route_conditional_tools in
src/client.py: it inspects the last message and returns the tools route when
that message is an assistant message carrying at least one tool call,
otherwise END. -/
def tools_condition (messages : List Msg) : String :=
  match messages.getLast? with
  | some (Msg.ai _ (_ :: _)) => "tools"
  | _ => END

/-- route_conditional_tools from src/client.py: if tools_condition says END,
return END; otherwise read the FIRST tool call of the last assistant message
and send it to sensitive_tools when its name is in SENSITIVE_TOOLS, else to
safe_tools. The none result models the Python IndexError on tool_calls with
an empty list, which the guard makes unreachable. -/
def route_conditional_tools (messages : List Msg) : Option String :=
  if tools_condition messages = END then some END
  else
    match messages.getLast? with
    | some (Msg.ai _ (tc :: _)) =>
        some (if SENSITIVE_TOOLS.contains tc.name then "sensitive_tools"
              else "safe_tools")
    | _ => none

/-- The external ToolInvoker capability: tool name and arguments to either a
result rendered as tool-message content, or an error message. -/
def ToolInvoker : Type := String → Json → Except String String

/-- The external Reasoner capability wrapped by HigressAssistant in
src/client.py: conversation to the content and tool calls of one new
assistant message. -/
def Reasoner : Type := List Msg → String × List ToolCall

/-- HigressAssistant from src/client.py: invoke the runnable once on the
current messages and append the resulting assistant message (add_messages
semantics). There is no validation and no retry around the call. -/
def assistant_node (reasoner : Reasoner) (messages : List Msg) : List Msg :=
  messages ++ [Msg.ai (reasoner messages).1 (reasoner messages).2]

/-- Run the tool calls of one assistant message in order through the invoker,
stopping at the first raised failure, as the ToolNode body does. Each
successful call yields a ToolMessage linked to the call id. -/
def run_tool_calls (invoker : ToolInvoker) : List ToolCall → Except String (List Msg)
  | [] => Except.ok []
  | tc :: rest =>
    match invoker tc.name tc.args with
    | Except.error e => Except.error e
    | Except.ok content =>
      match run_tool_calls invoker rest with
      | Except.error e => Except.error e
      | Except.ok msgs => Except.ok (Msg.tool tc.id content :: msgs)

/-- Invocation trace of the same execution: the name and arguments passed to
the invoker for each call actually performed. -/
def run_tool_calls_trace (invoker : ToolInvoker) : List ToolCall → List (String × Json)
  | [] => []
  | tc :: rest =>
    (tc.name, tc.args) ::
      (match invoker tc.name tc.args with
       | Except.ok _ => run_tool_calls_trace invoker rest
       | Except.error _ => [])

/-- handle_tool_error from src/tools/handler.py: read the tool calls of the
last message and produce, for every one of them, a ToolMessage whose content
reports the error and whose tool_call_id links to that call. -/
def handle_tool_error (error : String) (tool_calls : List ToolCall) : List Msg :=
  tool_calls.map (fun tc =>
    Msg.tool tc.id ("Error: " ++ error ++ "\nPlease correct your error."))

/-- Tool calls of the last message of the conversation, empty when the last
message is not an assistant message. -/
def last_tool_calls (messages : List Msg) : List ToolCall :=
  match messages.getLast? with
  | some (Msg.ai _ tcs) => tcs
  | _ => []

/-- create_tool_node_with_fallback from src/tools/handler.py: a ToolNode runs
every tool call of the last assistant message through the invoker; when the
invoker raises, the fallback handle_tool_error turns the failure into one
error ToolMessage per call instead of propagating it. -/
def tool_node_with_fallback (invoker : ToolInvoker) (messages : List Msg) : List Msg :=
  match run_tool_calls invoker (last_tool_calls messages) with
  | Except.ok results => results
  | Except.error e => handle_tool_error e (last_tool_calls messages)

/-- Invocation trace of the tool node on a conversation. -/
def tool_node_trace (invoker : ToolInvoker) (messages : List Msg) : List (String × Json) :=
  run_tool_calls_trace invoker (last_tool_calls messages)

/-- Nodes of the graph built by build_and_run_graph in src/client.py. -/
inductive Node where
  | assistant : Node
  | safe_tools : Node
  | sensitive_tools : Node
deriving DecidableEq

/-- Observable outcome of driving the compiled graph: the run either reaches
END (terminal), or is interrupted before the sensitive_tools node
(suspended), or hits the unreachable routing error (stuck), or exhausts the
step budget used to model the unbounded loop. Each outcome carries the
conversation state at that point. -/
inductive RunResult where
  | terminal (messages : List Msg) : RunResult
  | suspended (messages : List Msg) : RunResult
  | stuck (messages : List Msg) : RunResult
  | out_of_fuel (messages : List Msg) : RunResult

/-- Conversation state carried by a run outcome. -/
def RunResult.messages : RunResult → List Msg
  | RunResult.terminal m => m
  | RunResult.suspended m => m
  | RunResult.stuck m => m
  | RunResult.out_of_fuel m => m

/-- Drive the compiled graph of build_and_run_graph from a given node: the
assistant node appends one reasoner message and routes it with
route_conditional_tools; safe_tools and sensitive_tools append the tool-node
output and return to the assistant. Because the graph is compiled with
interrupt_before sensitive_tools, reaching the sensitive route returns
control to the caller as a suspended result before the node executes. Fuel
bounds the number of graph steps. -/
def run_from (reasoner : Reasoner) (invoker : ToolInvoker) :
    Nat → Node → List Msg → RunResult
  | 0, _, messages => RunResult.out_of_fuel messages
  | fuel + 1, Node.assistant, messages =>
    let messages2 := assistant_node reasoner messages
    match route_conditional_tools messages2 with
    | none => RunResult.stuck messages2
    | some r =>
      if r = "safe_tools" then
        run_from reasoner invoker fuel Node.safe_tools messages2
      else if r = "sensitive_tools" then
        RunResult.suspended messages2
      else
        RunResult.terminal messages2
  | fuel + 1, Node.safe_tools, messages =>
    run_from reasoner invoker fuel Node.assistant
      (messages ++ tool_node_with_fallback invoker messages)
  | fuel + 1, Node.sensitive_tools, messages =>
    run_from reasoner invoker fuel Node.assistant
      (messages ++ tool_node_with_fallback invoker messages)

/-- startOrContinue for one user query: append the human message and run the
graph from the assistant node, as the main loop of build_and_run_graph does. -/
def start_or_continue (reasoner : Reasoner) (invoker : ToolInvoker)
    (fuel : Nat) (messages : List Msg) (query : String) : RunResult :=
  run_from reasoner invoker fuel Node.assistant (messages ++ [Msg.human query])

/-- The Python expression user_input.strip().lower() used by
process_tool_calls: drop whitespace from both ends, then lowercase. Written
by structural recursion over the character list so that it evaluates inside
proofs. -/
def py_strip_lower (s : String) : String :=
  String.mk
    ((((s.data.dropWhile Char.isWhitespace).reverse.dropWhile
        Char.isWhitespace).reverse).map Char.toLower)

/-- process_tool_calls from src/client.py, for a suspended run: read the
first tool call of the last assistant message; for a sensitive tool, input y
(after strip and lowercase) resumes the interrupted sensitive_tools node,
while any other input appends a rejection ToolMessage linked to the pending
call id and restarts the graph at the assistant. The graph only interrupts
before sensitive_tools, so the defensive non-sensitive branch of the source
likewise resumes the interrupted node. The none result models the branch in
which the last message carries no tool calls and nothing is processed. -/
def process_decision (reasoner : Reasoner) (invoker : ToolInvoker) (fuel : Nat)
    (messages : List Msg) (user_input : String) : Option RunResult :=
  match messages.getLast? with
  | some (Msg.ai _ (tc :: _)) =>
    if SENSITIVE_TOOLS.contains tc.name then
      if py_strip_lower user_input = "y" then
        some (run_from reasoner invoker fuel Node.sensitive_tools messages)
      else
        some (run_from reasoner invoker fuel Node.assistant
          (messages ++ [Msg.tool tc.id
            ("Operation rejected by user. Reason: \x27" ++ user_input ++ "\x27.")]))
    else
      some (run_from reasoner invoker fuel Node.sensitive_tools messages)
  | _ => none

/-- Lookup in a Python dict modelled as an association list in insertion
order: the value of the first entry carrying the key. -/
def dictGet : List (String × Json) → String → Option Json
  | [], _ => none
  | p :: d, k => if p.1 == k then some p.2 else dictGet d k

/-- Assigning one key of a Python dict: an existing key keeps its position
and receives the new value; a new key is appended at the end. -/
def dictSet (d : List (String × Json)) (k : String) (v : Json) :
    List (String × Json) :=
  if d.any (fun p => p.1 == k) then
    d.map (fun p => if p.1 == k then (k, v) else p)
  else d ++ [(k, v)]

/-- Python dict.update: assign every key of the updates, in order. -/
def dictUpdate (d updates : List (String × Json)) : List (String × Json) :=
  updates.foldl (fun acc p => dictSet acc p.1 p.2) d

/-- Plugin data as fetched from the control plane by get_plugin: the
configurations field (none models JSON null), the enabled flag, and the
remaining fields of the object. -/
structure PluginData where
  configurations : Option (List (String × Json))
  enabled : Bool
  rest : List (String × Json)

/-- update_plugin from src/utils/higress_client.py, applied to the fetched
plugin data: start from the stored configurations, or from the empty dict
when they are null (the Python or-expression also maps an empty stored dict
to a fresh empty dict, which has the same value); merge the supplied
configurations into them when the supplied mapping is non-empty; then write
back the merged configurations and the enabled flag while carrying every
other field over unchanged. The returned value is the body of the PUT
request sent back to the control plane. -/
def update_plugin (fetched : PluginData) (enabled : Bool)
    (configurations : List (String × Json)) : PluginData :=
  let config := match fetched.configurations with
    | none => []
    | some kvs => kvs
  let config2 :=
    if configurations.isEmpty then config else dictUpdate config configurations
  { fetched with configurations := some config2, enabled := enabled }

/-- Does the last message of the conversation carry a first tool call whose
name is in the sensitive set. -/
def first_call_sensitive (messages : List Msg) : Bool :=
  match messages.getLast? with
  | some (Msg.ai _ (tc :: _)) => SENSITIVE_TOOLS.contains tc.name
  | _ => false

theorem route_eq_sensitive_iff (messages : List Msg) :
    route_conditional_tools messages = some "sensitive_tools" ↔
      first_call_sensitive messages = true := by
  have hne : "tools" ≠ END := by decide
  have hne2 : END ≠ "sensitive_tools" := by decide
  have hne3 : "safe_tools" ≠ "sensitive_tools" := by decide
  cases h : messages.getLast? with
  | none => simp [route_conditional_tools, tools_condition, first_call_sensitive, h, hne2]
  | some m =>
    cases m with
    | human c =>
      simp [route_conditional_tools, tools_condition, first_call_sensitive, h, hne2]
    | tool i c =>
      simp [route_conditional_tools, tools_condition, first_call_sensitive, h, hne2]
    | ai c tcs =>
      cases tcs with
      | nil =>
        simp [route_conditional_tools, tools_condition, first_call_sensitive, h, hne2]
      | cons tc rest =>
        by_cases hs : SENSITIVE_TOOLS.contains tc.name
        · simp [route_conditional_tools, tools_condition, first_call_sensitive, h, hne, hs]
        · simp [route_conditional_tools, tools_condition, first_call_sensitive, h, hne, hs, hne3]

theorem route_eq_safe_iff (messages : List Msg) (t : String) (tc : ToolCall)
    (rest : List ToolCall)
    (hlast : messages.getLast? = some (Msg.ai t (tc :: rest))) :
    route_conditional_tools messages = some "safe_tools" ↔
      SENSITIVE_TOOLS.contains tc.name = false := by
  have hne : "tools" ≠ END := by decide
  have hne3 : "sensitive_tools" ≠ "safe_tools" := by decide
  by_cases hs : SENSITIVE_TOOLS.contains tc.name
  · simp [route_conditional_tools, tools_condition, hlast, hne, hs, hne3]
  · simp [route_conditional_tools, tools_condition, hlast, hne, hs]

theorem suspended_first_sensitive (reasoner : Reasoner) (invoker : ToolInvoker) :
    ∀ (fuel : Nat) (start : Node) (messages m : List Msg),
      run_from reasoner invoker fuel start messages = RunResult.suspended m →
      first_call_sensitive m = true := by
  intro fuel
  induction fuel with
  | zero =>
    intro start messages m h
    simp [run_from] at h
  | succ fuel ih =>
    intro start messages m h
    cases start with
    | assistant =>
      simp only [run_from] at h
      cases hr : route_conditional_tools (assistant_node reasoner messages) with
      | none =>
        simp only [hr] at h
        simp at h
      | some r =>
        simp only [hr] at h
        by_cases h1 : r = "safe_tools"
        · rw [if_pos h1] at h
          exact ih Node.safe_tools _ _ h
        · rw [if_neg h1] at h
          by_cases h2 : r = "sensitive_tools"
          · rw [if_pos h2] at h
            injection h with hh
            rw [← hh]
            exact (route_eq_sensitive_iff _).mp (h2 ▸ hr)
          · rw [if_neg h2] at h
            simp at h
    | safe_tools =>
      simp only [run_from] at h
      exact ih Node.assistant _ _ h
    | sensitive_tools =>
      simp only [run_from] at h
      exact ih Node.assistant _ _ h

theorem safe_reasoner_never_suspends (reasoner : Reasoner) (invoker : ToolInvoker)
    (hsafe : ∀ c, first_call_sensitive (assistant_node reasoner c) = false) :
    ∀ (fuel : Nat) (start : Node) (messages m : List Msg),
      run_from reasoner invoker fuel start messages ≠ RunResult.suspended m := by
  intro fuel
  induction fuel with
  | zero =>
    intro start messages m h
    simp [run_from] at h
  | succ fuel ih =>
    intro start messages m h
    cases start with
    | assistant =>
      simp only [run_from] at h
      cases hr : route_conditional_tools (assistant_node reasoner messages) with
      | none =>
        simp only [hr] at h
        simp at h
      | some r =>
        simp only [hr] at h
        by_cases h1 : r = "safe_tools"
        · rw [if_pos h1] at h
          exact ih Node.safe_tools _ _ h
        · rw [if_neg h1] at h
          by_cases h2 : r = "sensitive_tools"
          · have : first_call_sensitive (assistant_node reasoner messages) = true :=
              (route_eq_sensitive_iff _).mp (h2 ▸ hr)
            rw [hsafe messages] at this
            exact Bool.false_ne_true this
          · rw [if_neg h2] at h
            simp at h
    | safe_tools =>
      simp only [run_from] at h
      exact ih Node.assistant _ _ h
    | sensitive_tools =>
      simp only [run_from] at h
      exact ih Node.assistant _ _ h

theorem sensitive_first_suspends (reasoner : Reasoner) (invoker : ToolInvoker)
    (fuel : Nat) (messages : List Msg)
    (h : first_call_sensitive (assistant_node reasoner messages) = true) :
    run_from reasoner invoker (fuel + 1) Node.assistant messages =
      RunResult.suspended (assistant_node reasoner messages) := by
  have hr : route_conditional_tools (assistant_node reasoner messages) =
      some "sensitive_tools" := (route_eq_sensitive_iff _).mpr h
  simp [run_from, hr]

theorem last_concat {α : Type _} (l : List α) (a : α) : (l ++ [a]).getLast? = some a := by
  rw [List.getLast?_append_cons]
  rfl

theorem first_call_sensitive_assistant (reasoner : Reasoner) (c : List Msg) :
    first_call_sensitive (assistant_node reasoner c) =
      (match (reasoner c).2 with
       | tc :: _ => SENSITIVE_TOOLS.contains tc.name
       | [] => false) := by
  cases h : (reasoner c).2 with
  | nil => simp [first_call_sensitive, assistant_node, last_concat, h]
  | cons tc rest => simp [first_call_sensitive, assistant_node, last_concat, h]

/-- A tool invoker stub that always succeeds. -/
def okInvoker : ToolInvoker := fun _ _ => Except.ok "ok"

/-- A reasoner stub that always proposes one sensitive action. -/
def sensReasoner : Reasoner :=
  fun _ => ("", [ToolCall.mk "c1" "update_route" Json.null])

/-- A reasoner stub that always answers with a final text and no actions. -/
def silentReasoner : Reasoner := fun _ => ("done", [])

/-- Claim C1: the orchestration graph suspends, returning control to the
caller with the proposal still unexecuted, exactly when the first proposed
action of the assistant message classifies as sensitive. Part one: every
suspended outcome ends in an assistant message whose first tool call is
sensitive, so entering the gate before sensitive_tools is the only
suspension point. Part two: when the first proposed action is sensitive, the
reasoning step suspends immediately, handing back the conversation whose
last turn is the unexecuted proposal. Part three: when the reasoner only
ever proposes safe first actions, no run from any node ever suspends; in
particular start_or_continue never suspends for sequences of safe actions. -/
theorem graph_suspends_iff_first_sensitive (reasoner : Reasoner) (invoker : ToolInvoker) :
    (∀ (fuel : Nat) (start : Node) (messages m : List Msg),
        run_from reasoner invoker fuel start messages = RunResult.suspended m →
        first_call_sensitive m = true)
    ∧ (∀ (fuel : Nat) (messages : List Msg),
        first_call_sensitive (assistant_node reasoner messages) = true →
        run_from reasoner invoker (fuel + 1) Node.assistant messages =
          RunResult.suspended (assistant_node reasoner messages))
    ∧ (∀ (fuel : Nat) (start : Node) (messages m : List Msg),
        (∀ c, first_call_sensitive (assistant_node reasoner c) = false) →
        run_from reasoner invoker fuel start messages ≠ RunResult.suspended m)
    ∧ (∀ (fuel : Nat) (messages m : List Msg) (query : String),
        (∀ c, first_call_sensitive (assistant_node reasoner c) = false) →
        start_or_continue reasoner invoker fuel messages query ≠ RunResult.suspended m) := by
  refine ⟨suspended_first_sensitive reasoner invoker,
          sensitive_first_suspends reasoner invoker,
          fun fuel start messages m hsafe =>
            safe_reasoner_never_suspends reasoner invoker hsafe fuel start messages m,
          fun fuel messages m query hsafe =>
            safe_reasoner_never_suspends reasoner invoker hsafe fuel Node.assistant _ m⟩

theorem graph_suspends_iff_first_sensitive_witness :
    first_call_sensitive (assistant_node sensReasoner []) = true
    ∧ run_from sensReasoner okInvoker 1 Node.assistant [] =
        RunResult.suspended (assistant_node sensReasoner [])
    ∧ start_or_continue silentReasoner okInvoker 3 [] "hello" ≠
        RunResult.suspended [] := by
  refine ⟨rfl,
    (graph_suspends_iff_first_sensitive sensReasoner okInvoker).2.1 0 [] rfl,
    (graph_suspends_iff_first_sensitive silentReasoner okInvoker).2.2.2 3 [] [] "hello"
      (fun c => ?_)⟩
  rw [first_call_sensitive_assistant]
  rfl

theorem route_concat_ai_nil (messages : List Msg) (c : String) :
    route_conditional_tools (messages ++ [Msg.ai c []]) = some END := by
  simp [route_conditional_tools, tools_condition, last_concat]

theorem tools_condition_assistant_end (reasoner : Reasoner) (messages : List Msg)
    (h : tools_condition (assistant_node reasoner messages) = END) :
    (reasoner messages).2 = [] := by
  cases hc : (reasoner messages).2 with
  | nil => rfl
  | cons tc rest =>
    simp [tools_condition, assistant_node, last_concat, hc, END] at h

theorem route_cases (messages : List Msg) (r : String)
    (h : route_conditional_tools messages = some r) :
    (r = END ∧ tools_condition messages = END) ∨ r = "safe_tools" ∨
      r = "sensitive_tools" := by
  unfold route_conditional_tools at h
  by_cases ht : tools_condition messages = END
  · rw [if_pos ht] at h
    injection h with hh
    exact Or.inl ⟨hh.symm, ht⟩
  · rw [if_neg ht] at h
    cases hl : messages.getLast? with
    | none => rw [hl] at h; exact absurd h (by simp)
    | some msg =>
      cases msg with
      | human c => rw [hl] at h; exact absurd h (by simp)
      | tool i c => rw [hl] at h; exact absurd h (by simp)
      | ai c tcs =>
        cases tcs with
        | nil => rw [hl] at h; exact absurd h (by simp)
        | cons tc rest =>
          rw [hl] at h
          injection h with hh
          by_cases hs : SENSITIVE_TOOLS.contains tc.name
          · rw [if_pos hs] at hh
            exact Or.inr (Or.inr hh.symm)
          · rw [if_neg hs] at hh
            exact Or.inr (Or.inl hh.symm)

theorem terminal_last_no_actions (reasoner : Reasoner) (invoker : ToolInvoker) :
    ∀ (fuel : Nat) (start : Node) (messages m : List Msg),
      run_from reasoner invoker fuel start messages = RunResult.terminal m →
      ∃ t, m.getLast? = some (Msg.ai t []) := by
  intro fuel
  induction fuel with
  | zero =>
    intro start messages m h
    simp [run_from] at h
  | succ fuel ih =>
    intro start messages m h
    cases start with
    | assistant =>
      simp only [run_from] at h
      cases hr : route_conditional_tools (assistant_node reasoner messages) with
      | none =>
        simp only [hr] at h
        simp at h
      | some r =>
        simp only [hr] at h
        by_cases h1 : r = "safe_tools"
        · rw [if_pos h1] at h
          exact ih Node.safe_tools _ _ h
        · rw [if_neg h1] at h
          by_cases h2 : r = "sensitive_tools"
          · rw [if_pos h2] at h
            simp at h
          · rw [if_neg h2] at h
            injection h with hh
            rcases route_cases _ _ hr with ⟨_, hend⟩ | hra | hra
            · have hnil : (reasoner messages).2 = [] :=
                tools_condition_assistant_end reasoner messages hend
              refine ⟨(reasoner messages).1, ?_⟩
              rw [← hh, assistant_node, hnil, last_concat]
            · exact absurd hra h1
            · exact absurd hra h2
    | safe_tools =>
      simp only [run_from] at h
      exact ih Node.assistant _ _ h
    | sensitive_tools =>
      simp only [run_from] at h
      exact ih Node.assistant _ _ h

/-- Claim C8: the graph reaches the terminal outcome exactly when the
proposal of the reasoning step carries no actions. Part one: every terminal
outcome ends in an assistant message with an empty tool-call list, so a
proposal with actions never terminates the turn. Part two: when the proposal
carries no actions, the reasoning step immediately ends the turn, emitting
to the caller the conversation extended with exactly that final answer. -/
theorem terminal_iff_no_actions (reasoner : Reasoner) (invoker : ToolInvoker) :
    (∀ (fuel : Nat) (start : Node) (messages m : List Msg),
        run_from reasoner invoker fuel start messages = RunResult.terminal m →
        ∃ t, m.getLast? = some (Msg.ai t []))
    ∧ (∀ (fuel : Nat) (messages : List Msg),
        (reasoner messages).2 = [] →
        run_from reasoner invoker (fuel + 1) Node.assistant messages =
          RunResult.terminal (messages ++ [Msg.ai (reasoner messages).1 []])) := by
  refine ⟨terminal_last_no_actions reasoner invoker, fun fuel messages hnil => ?_⟩
  have ha : assistant_node reasoner messages =
      messages ++ [Msg.ai (reasoner messages).1 []] := by
    rw [assistant_node, hnil]
  simp only [run_from, ha, route_concat_ai_nil]
  rw [if_neg (by decide), if_neg (by decide)]

theorem terminal_iff_no_actions_witness :
    (silentReasoner []).2 = []
    ∧ run_from silentReasoner okInvoker 1 Node.assistant [] =
        RunResult.terminal [Msg.ai "done" []] :=
  ⟨rfl, (terminal_iff_no_actions silentReasoner okInvoker).2 0 [] rfl⟩

/-- The action classifier of the spec, as implemented by the membership test
on SENSITIVE_TOOLS in route_conditional_tools: an action name is sensitive
exactly when it belongs to the configured sensitive set. -/
def classify (name : String) (sensitive_set : List String) : Bool :=
  sensitive_set.contains name

/-- Claim C5: classification is a deterministic, total, side-effect-free
function of the action name and the configured sensitive set. The routing of
a proposal whose first action is named tc.name goes to the gated
sensitive_tools node exactly when the name is a member of SENSITIVE_TOOLS,
and to the immediately executing safe_tools node exactly when it is not, so
unknown names default to safe. -/
theorem classification_membership (messages : List Msg) (t : String)
    (tc : ToolCall) (rest : List ToolCall)
    (hlast : messages.getLast? = some (Msg.ai t (tc :: rest))) :
    classify tc.name SENSITIVE_TOOLS = SENSITIVE_TOOLS.contains tc.name
    ∧ (route_conditional_tools messages = some "sensitive_tools" ↔
        tc.name ∈ SENSITIVE_TOOLS)
    ∧ (route_conditional_tools messages = some "safe_tools" ↔
        ¬ tc.name ∈ SENSITIVE_TOOLS) := by
  refine ⟨rfl, ?_, ?_⟩
  · rw [route_eq_sensitive_iff]
    simp [first_call_sensitive, hlast]
  · rw [route_eq_safe_iff messages t tc rest hlast]
    simp

theorem classification_membership_witness :
    ([Msg.ai "q" [ToolCall.mk "c1" "list_routes" Json.null]] : List Msg).getLast? =
      some (Msg.ai "q" [ToolCall.mk "c1" "list_routes" Json.null])
    ∧ (route_conditional_tools [Msg.ai "q" [ToolCall.mk "c1" "list_routes" Json.null]] =
        some "safe_tools" ↔ ¬ "list_routes" ∈ SENSITIVE_TOOLS) :=
  ⟨rfl, (classification_membership [Msg.ai "q" [ToolCall.mk "c1" "list_routes" Json.null]]
    "q" (ToolCall.mk "c1" "list_routes" Json.null) [] rfl).2.2⟩

/-- A tool invoker stub that always raises a not-found failure. -/
def errInvoker : ToolInvoker := fun _ _ => Except.error "not found"

/-- Claim C3: when the invoker raises a failure while running the tool calls
of the last assistant message, the fallback converts the failure into one
error ToolMessage per call, each linked to the id of its tool call and each
carrying a non-empty error text; the node returns these observations instead
of propagating the fault, and the graph then proceeds to another reasoning
step at the assistant node rather than aborting. -/
theorem tool_failure_recovered (reasoner : Reasoner) (invoker : ToolInvoker)
    (fuel : Nat) (messages : List Msg) (e : String)
    (herr : run_tool_calls invoker (last_tool_calls messages) = Except.error e) :
    tool_node_with_fallback invoker messages =
      (last_tool_calls messages).map (fun tc =>
        Msg.tool tc.id ("Error: " ++ e ++ "\nPlease correct your error."))
    ∧ (∀ tc ∈ last_tool_calls messages,
        Msg.tool tc.id ("Error: " ++ e ++ "\nPlease correct your error.") ∈
          tool_node_with_fallback invoker messages)
    ∧ 0 < ("Error: " ++ e ++ "\nPlease correct your error.").length
    ∧ run_from reasoner invoker (fuel + 1) Node.safe_tools messages =
        run_from reasoner invoker fuel Node.assistant
          (messages ++ tool_node_with_fallback invoker messages) := by
  have hout : tool_node_with_fallback invoker messages =
      (last_tool_calls messages).map (fun tc =>
        Msg.tool tc.id ("Error: " ++ e ++ "\nPlease correct your error.")) := by
    simp [tool_node_with_fallback, herr, handle_tool_error]
  refine ⟨hout, ?_, ?_, ?_⟩
  · intro tc htc
    rw [hout]
    exact List.mem_map_of_mem _ htc
  · rw [String.length_append, String.length_append]
    have h7 : (0 : Nat) < "Error: ".length := by decide
    omega
  · rfl

theorem tool_failure_recovered_witness :
    run_tool_calls errInvoker
        (last_tool_calls [Msg.ai "q" [ToolCall.mk "c1" "get_route" Json.null]]) =
      Except.error "not found"
    ∧ tool_node_with_fallback errInvoker
        [Msg.ai "q" [ToolCall.mk "c1" "get_route" Json.null]] =
      (last_tool_calls [Msg.ai "q" [ToolCall.mk "c1" "get_route" Json.null]]).map
        (fun tc => Msg.tool tc.id ("Error: " ++ "not found" ++ "\nPlease correct your error.")) :=
  ⟨rfl, (tool_failure_recovered silentReasoner errInvoker 0
    [Msg.ai "q" [ToolCall.mk "c1" "get_route" Json.null]] "not found" rfl).1⟩

/-- Claim C2: approving a suspended sensitive action executes it exactly
once with the originally proposed arguments. The suspended conversation
stores the pending proposal as its last assistant message; on the approval
input y, process_decision resumes the interrupted sensitive_tools node,
whose invocation trace on that conversation is exactly one call carrying the
proposed name and unchanged arguments, and the graph then returns to the
assistant with the appended observation. -/
theorem approve_executes_pending_once (reasoner : Reasoner) (invoker : ToolInvoker)
    (fuel : Nat) (messages : List Msg) (t : String) (tc : ToolCall)
    (hlast : messages.getLast? = some (Msg.ai t [tc]))
    (hsens : SENSITIVE_TOOLS.contains tc.name = true) :
    tool_node_trace invoker messages = [(tc.name, tc.args)]
    ∧ process_decision reasoner invoker (fuel + 1) messages "y" =
        some (run_from reasoner invoker fuel Node.assistant
          (messages ++ tool_node_with_fallback invoker messages)) := by
  have hl : last_tool_calls messages = [tc] := by simp [last_tool_calls, hlast]
  constructor
  · rw [tool_node_trace, hl]
    cases h : invoker tc.name tc.args <;> simp [run_tool_calls_trace, h]
  · have hmem : tc.name ∈ SENSITIVE_TOOLS := by simpa using hsens
    have hy : py_strip_lower "y" = "y" := rfl
    simp [process_decision, hlast, hsens, hmem, hy, run_from]

theorem approve_executes_pending_once_witness :
    ([Msg.ai "go" [ToolCall.mk "c1" "update_route" Json.null]] : List Msg).getLast? =
      some (Msg.ai "go" [ToolCall.mk "c1" "update_route" Json.null])
    ∧ SENSITIVE_TOOLS.contains "update_route" = true
    ∧ tool_node_trace okInvoker [Msg.ai "go" [ToolCall.mk "c1" "update_route" Json.null]] =
        [("update_route", Json.null)] :=
  ⟨rfl, rfl,
   (approve_executes_pending_once silentReasoner okInvoker 1
     [Msg.ai "go" [ToolCall.mk "c1" "update_route" Json.null]] "go"
     (ToolCall.mk "c1" "update_route" Json.null) rfl rfl).1⟩

/-- Claim C7: rejecting a suspended sensitive action with a reason appends a
synthesized ToolMessage whose tool_call_id is the id of the pending first
tool call and whose content carries the rejection reason, and restarts the
graph at the assistant node, so the machine re-enters reasoning with the
pending gate cleared. -/
theorem reject_synthesizes_tool_result (reasoner : Reasoner) (invoker : ToolInvoker)
    (fuel : Nat) (messages : List Msg) (t reason : String) (tc : ToolCall)
    (rest : List ToolCall)
    (hlast : messages.getLast? = some (Msg.ai t (tc :: rest)))
    (hsens : SENSITIVE_TOOLS.contains tc.name = true)
    (hrej : py_strip_lower reason ≠ "y") :
    process_decision reasoner invoker fuel messages reason =
      some (run_from reasoner invoker fuel Node.assistant
        (messages ++ [Msg.tool tc.id
          ("Operation rejected by user. Reason: \x27" ++ reason ++ "\x27.")])) := by
  have hmem : tc.name ∈ SENSITIVE_TOOLS := by simpa using hsens
  simp [process_decision, hlast, hsens, hmem, hrej]

theorem reject_synthesizes_tool_result_witness :
    py_strip_lower "use code 401" ≠ "y"
    ∧ process_decision silentReasoner okInvoker 2
        [Msg.human "block admin", Msg.ai "" [ToolCall.mk "c1" "update_request_block_plugin" Json.null]]
        "use code 401" =
      some (run_from silentReasoner okInvoker 2 Node.assistant
        ([Msg.human "block admin", Msg.ai "" [ToolCall.mk "c1" "update_request_block_plugin" Json.null]] ++
          [Msg.tool "c1" ("Operation rejected by user. Reason: \x27" ++ "use code 401" ++ "\x27.")])) :=
  ⟨by decide,
   reject_synthesizes_tool_result silentReasoner okInvoker 2
     [Msg.human "block admin", Msg.ai "" [ToolCall.mk "c1" "update_request_block_plugin" Json.null]]
     "" "use code 401" (ToolCall.mk "c1" "update_request_block_plugin" Json.null) []
     rfl rfl (by decide)⟩

/-- Counterexample to claim C9: the claim asserts a malformed-decision
branch in which an approval input that is neither Approve nor Reject is
surfaced as an error while the session state stays unchanged. The code has
no such branch: the decision input is a free-form string, and every input
other than y is consumed as a rejection. On the empty input, which is not
the approval token and names no requested change, the session is mutated:
the conversation gains a rejection ToolMessage with the empty reason and the
graph runs on to a new terminal state, instead of surfacing an error with
the state unchanged. -/
theorem malformed_decision_counterexample :
    process_decision silentReasoner okInvoker 2
        [Msg.human "do it", Msg.ai "" [ToolCall.mk "c1" "update_route" Json.null]] "" =
      some (RunResult.terminal
        [Msg.human "do it", Msg.ai "" [ToolCall.mk "c1" "update_route" Json.null],
         Msg.tool "c1" "Operation rejected by user. Reason: \x27\x27.",
         Msg.ai "done" []]) := by
  rfl

/-- Claim C9 as amended: decision handling is total over raw string inputs:
after stripping and lowercasing, the input y resumes the pending sensitive
node, and every other input, well-formed or not, is consumed as a rejection
that appends a ToolMessage carrying the raw input as its reason, which
always changes the conversation; no input is surfaced as a malformed
decision error with the session left unchanged. -/
theorem decision_handling_total (reasoner : Reasoner) (invoker : ToolInvoker)
    (fuel : Nat) (messages : List Msg) (t : String) (tc : ToolCall)
    (rest : List ToolCall)
    (hlast : messages.getLast? = some (Msg.ai t (tc :: rest)))
    (hsens : SENSITIVE_TOOLS.contains tc.name = true) :
    ∀ user_input : String,
      (process_decision reasoner invoker fuel messages user_input).isSome = true
      ∧ (py_strip_lower user_input = "y" →
          process_decision reasoner invoker fuel messages user_input =
            some (run_from reasoner invoker fuel Node.sensitive_tools messages))
      ∧ (py_strip_lower user_input ≠ "y" →
          process_decision reasoner invoker fuel messages user_input =
            some (run_from reasoner invoker fuel Node.assistant
              (messages ++ [Msg.tool tc.id
                ("Operation rejected by user. Reason: \x27" ++ user_input ++ "\x27.")]))
          ∧ messages ++ [Msg.tool tc.id
              ("Operation rejected by user. Reason: \x27" ++ user_input ++ "\x27.")] ≠
              messages) := by
  intro user_input
  have hmem : tc.name ∈ SENSITIVE_TOOLS := by simpa using hsens
  by_cases hy : py_strip_lower user_input = "y"
  · refine ⟨?_, fun _ => ?_, fun hn => absurd hy hn⟩ <;>
      simp [process_decision, hlast, hsens, hmem, hy]
  · refine ⟨?_, fun he => absurd he hy, fun _ => ⟨?_, ?_⟩⟩
    · simp [process_decision, hlast, hsens, hmem, hy]
    · simp [process_decision, hlast, hsens, hmem, hy]
    · intro hcontra
      have hlen := congrArg List.length hcontra
      simp at hlen

theorem decision_handling_total_witness :
    (process_decision silentReasoner okInvoker 1
        [Msg.ai "go" [ToolCall.mk "c2" "add_route" Json.null]] "zzz").isSome = true :=
  (decision_handling_total silentReasoner okInvoker 1
    [Msg.ai "go" [ToolCall.mk "c2" "add_route" Json.null]] "go"
    (ToolCall.mk "c2" "add_route" Json.null) [] rfl rfl "zzz").1

/-- Number of human turns in a conversation. -/
def human_count (messages : List Msg) : Nat :=
  messages.countP (fun m =>
    match m with
    | Msg.human _ => true
    | _ => false)

theorem human_count_append (a b : List Msg) :
    human_count (a ++ b) = human_count a + human_count b :=
  List.countP_append _ _ _

theorem run_tool_calls_human_count (invoker : ToolInvoker) :
    ∀ (tcs : List ToolCall) (results : List Msg),
      run_tool_calls invoker tcs = Except.ok results → human_count results = 0 := by
  intro tcs
  induction tcs with
  | nil =>
    intro results h
    simp only [run_tool_calls] at h
    injection h with hh
    rw [← hh]
    rfl
  | cons tc rest ih =>
    intro results h
    simp only [run_tool_calls] at h
    cases hi : invoker tc.name tc.args with
    | error e => rw [hi] at h; simp at h
    | ok content =>
      rw [hi] at h
      cases hr : run_tool_calls invoker rest with
      | error e => rw [hr] at h; simp at h
      | ok msgs =>
        rw [hr] at h
        injection h with hh
        rw [← hh, human_count, List.countP_cons]
        have := ih msgs hr
        rw [human_count] at this
        simp [this]

theorem handle_tool_error_human_count (e : String) (tcs : List ToolCall) :
    human_count (handle_tool_error e tcs) = 0 := by
  induction tcs with
  | nil => rfl
  | cons tc rest ih =>
    rw [handle_tool_error, List.map_cons, human_count, List.countP_cons]
    rw [handle_tool_error, human_count] at ih
    simp [ih]

theorem tool_node_human_count (invoker : ToolInvoker) (messages : List Msg) :
    human_count (tool_node_with_fallback invoker messages) = 0 := by
  rw [tool_node_with_fallback]
  cases h : run_tool_calls invoker (last_tool_calls messages) with
  | error e => exact handle_tool_error_human_count e _
  | ok results => exact run_tool_calls_human_count invoker _ results h

theorem run_from_human_count (reasoner : Reasoner) (invoker : ToolInvoker) :
    ∀ (fuel : Nat) (start : Node) (messages : List Msg),
      human_count (run_from reasoner invoker fuel start messages).messages =
        human_count messages := by
  intro fuel
  induction fuel with
  | zero =>
    intro start messages
    rfl
  | succ fuel ih =>
    intro start messages
    have hstep : ∀ ms : List Msg,
        human_count (ms ++ tool_node_with_fallback invoker ms) = human_count ms := by
      intro ms
      simp [human_count_append, tool_node_human_count]
    have hassist : human_count (assistant_node reasoner messages) = human_count messages := by
      rw [assistant_node, human_count_append]
      rfl
    cases start with
    | assistant =>
      simp only [run_from]
      split
      · exact hassist
      · split
        · rw [ih]
          exact hassist
        · split
          · exact hassist
          · exact hassist
    | safe_tools =>
      simp only [run_from]
      rw [ih, hstep]
    | sensitive_tools =>
      simp only [run_from]
      rw [ih, hstep]

/-- A reasoner stub for the nudge-retry scenario with N equal to one: its
first call, on the conversation holding only the opening human message,
returns an invalid proposal (empty text and zero actions); any later call
would return a valid final answer. -/
def onceInvalidReasoner : Reasoner :=
  fun messages => if messages.length ≤ 1 then ("", []) else ("recovered", [])

/-- Counterexample to claim C4: HigressAssistant performs no nudge-and-retry
loop. Given the reasoner stub that returns one invalid proposal and then a
valid one, the claim predicts two reasoner calls and a final conversation
holding the valid proposal and no nudge turns. Instead the turn ends
immediately at the terminal state whose conversation carries the invalid
empty proposal itself: the second, valid answer is never requested and no
retry takes place. -/
theorem nudge_retry_counterexample :
    run_from onceInvalidReasoner okInvoker 5 Node.assistant [Msg.human "hi"] =
      RunResult.terminal [Msg.human "hi", Msg.ai "" []] := by
  rfl

/-- Claim C4 as amended: the reasoner adapter performs exactly one reasoner
call per reasoning step, appending the resulting assistant message to the
conversation unconditionally, with no validity check and no retry; and no
synthetic human nudge turn is ever created, since every run preserves the
number of human turns of its input conversation. -/
theorem assistant_single_call_no_nudge (reasoner : Reasoner) (invoker : ToolInvoker) :
    (∀ messages : List Msg,
        assistant_node reasoner messages =
          messages ++ [Msg.ai (reasoner messages).1 (reasoner messages).2])
    ∧ (∀ (fuel : Nat) (start : Node) (messages : List Msg),
        human_count (run_from reasoner invoker fuel start messages).messages =
          human_count messages) :=
  ⟨fun _ => rfl, run_from_human_count reasoner invoker⟩

/-- A reasoner stub that proposes two safe actions on its first call and a
final answer afterwards. -/
def twoActionReasoner : Reasoner :=
  fun messages =>
    if messages.length ≤ 1 then
      ("", [ToolCall.mk "1" "list_routes" Json.null,
            ToolCall.mk "2" "get_route" Json.null])
    else ("done", [])

/-- Counterexample to claim C6: a proposal carrying two actions is not
restricted to its first action. Routing inspects only the first tool call,
but the chosen tool node then executes every call of the proposal: the
terminal conversation contains a ToolMessage for the second call id as well,
so the remaining actions of a multi-action proposal are fanned out rather
than dropped. -/
theorem multi_action_fanout_counterexample :
    run_from twoActionReasoner okInvoker 5 Node.assistant [Msg.human "q"] =
      RunResult.terminal
        [Msg.human "q",
         Msg.ai "" [ToolCall.mk "1" "list_routes" Json.null,
                    ToolCall.mk "2" "get_route" Json.null],
         Msg.tool "1" "ok", Msg.tool "2" "ok",
         Msg.ai "done" []] := by
  rfl

theorem run_tool_calls_ok_length (invoker : ToolInvoker) :
    ∀ (tcs : List ToolCall) (results : List Msg),
      run_tool_calls invoker tcs = Except.ok results →
      results.length = tcs.length := by
  intro tcs
  induction tcs with
  | nil =>
    intro results h
    simp only [run_tool_calls] at h
    injection h with hh
    rw [← hh]
    rfl
  | cons tc rest ih =>
    intro results h
    simp only [run_tool_calls] at h
    cases hi : invoker tc.name tc.args with
    | error e => rw [hi] at h; simp at h
    | ok content =>
      rw [hi] at h
      cases hr : run_tool_calls invoker rest with
      | error e => rw [hr] at h; simp at h
      | ok msgs =>
        rw [hr] at h
        injection h with hh
        rw [← hh, List.length_cons, ih msgs hr, List.length_cons]

/-- Claim C6 as amended: only the first proposed action of an assistant
proposal determines the routing decision (classification and the suspension
gate read tool call zero only, so the routing of two proposals with the same
first call is identical whatever their remaining calls); the executing tool
node, however, is not limited to the first action: on a successful run it
produces one ToolResult per proposed action. -/
theorem first_action_routes_node_fans_out :
    (∀ (messages messages2 : List Msg) (t u : String) (tc : ToolCall)
        (rest rest2 : List ToolCall),
        route_conditional_tools (messages ++ [Msg.ai t (tc :: rest)]) =
          route_conditional_tools (messages2 ++ [Msg.ai u (tc :: rest2)]))
    ∧ (∀ (invoker : ToolInvoker) (messages : List Msg) (results : List Msg),
        run_tool_calls invoker (last_tool_calls messages) = Except.ok results →
        tool_node_with_fallback invoker messages = results
        ∧ results.length = (last_tool_calls messages).length) := by
  constructor
  · intro messages messages2 t u tc rest rest2
    simp [route_conditional_tools, tools_condition, last_concat]
  · intro invoker messages results h
    exact ⟨by simp [tool_node_with_fallback, h],
           run_tool_calls_ok_length invoker _ results h⟩

theorem first_action_routes_node_fans_out_witness :
    run_tool_calls okInvoker
        (last_tool_calls [Msg.ai "q" [ToolCall.mk "1" "list_routes" Json.null,
                                      ToolCall.mk "2" "get_route" Json.null]]) =
      Except.ok [Msg.tool "1" "ok", Msg.tool "2" "ok"]
    ∧ tool_node_with_fallback okInvoker
        [Msg.ai "q" [ToolCall.mk "1" "list_routes" Json.null,
                     ToolCall.mk "2" "get_route" Json.null]] =
        [Msg.tool "1" "ok", Msg.tool "2" "ok"]
    ∧ ([Msg.tool "1" "ok", Msg.tool "2" "ok"] : List Msg).length =
        (last_tool_calls [Msg.ai "q" [ToolCall.mk "1" "list_routes" Json.null,
                                      ToolCall.mk "2" "get_route" Json.null]]).length :=
  ⟨rfl,
   (first_action_routes_node_fans_out.2 okInvoker
     [Msg.ai "q" [ToolCall.mk "1" "list_routes" Json.null,
                  ToolCall.mk "2" "get_route" Json.null]]
     [Msg.tool "1" "ok", Msg.tool "2" "ok"] rfl).1,
   (first_action_routes_node_fans_out.2 okInvoker
     [Msg.ai "q" [ToolCall.mk "1" "list_routes" Json.null,
                  ToolCall.mk "2" "get_route" Json.null]]
     [Msg.tool "1" "ok", Msg.tool "2" "ok"] rfl).2⟩

theorem dictGet_map_set_ne (k k2 : String) (v : Json) (h : (k2 == k) = false) :
    ∀ d : List (String × Json),
      dictGet (d.map (fun p => if p.1 == k2 then (k2, v) else p)) k = dictGet d k := by
  intro d
  induction d with
  | nil => rfl
  | cons p d ih =>
    have ih2 : dictGet (List.map (fun q => if q.1 = k2 then (k2, v) else q) d) k =
        dictGet d k := by
      simpa using ih
    by_cases hp : (p.1 == k2) = true
    · have hpk : (p.1 == k) = false := by
        have he : p.1 = k2 := beq_iff_eq.mp hp
        rw [he]
        exact h
      simpa [dictGet, hp, h, hpk] using ih
    · simp [dictGet, hp]
      rw [ih2]

theorem dictGet_append_single_ne (k k2 : String) (v : Json) (h : (k2 == k) = false) :
    ∀ d : List (String × Json), dictGet (d ++ [(k2, v)]) k = dictGet d k := by
  intro d
  induction d with
  | nil => simp [dictGet, h]
  | cons p d ih => simp [dictGet, ih]

theorem dictGet_dictSet_ne (d : List (String × Json)) (k k2 : String) (v : Json)
    (h : (k2 == k) = false) : dictGet (dictSet d k2 v) k = dictGet d k := by
  rw [dictSet]
  split
  · exact dictGet_map_set_ne k k2 v h d
  · exact dictGet_append_single_ne k k2 v h d

theorem dictGet_dictUpdate_not_mem (k : String) :
    ∀ (updates d : List (String × Json)), ¬ k ∈ updates.map Prod.fst →
      dictGet (dictUpdate d updates) k = dictGet d k := by
  intro updates
  induction updates with
  | nil =>
    intro d _
    rfl
  | cons p updates ih =>
    intro d h
    have h1 : ¬ k ∈ updates.map Prod.fst := by
      intro hm
      exact h (by rw [List.map_cons]; exact List.mem_cons_of_mem _ hm)
    have h2 : (p.1 == k) = false := by
      cases hb : p.1 == k with
      | false => rfl
      | true =>
        exfalso
        have he : p.1 = k := beq_iff_eq.mp hb
        exact h (by rw [List.map_cons, he]; exact List.mem_cons_self _ _)
    have hfold : dictUpdate d (p :: updates) = dictUpdate (dictSet d p.1 p.2) updates := rfl
    rw [hfold, ih _ h1, dictGet_dictSet_ne _ _ _ _ h2]

/-- Claim C10: update_plugin is a read-modify-write merge on the fetched
plugin data. The enabled flag is overwritten with the supplied value and
every field other than configurations and enabled is carried over exactly as
fetched; the written configurations are the stored ones merged with the
supplied mapping, starting from the empty mapping when the stored
configurations are null; and any existing configuration key that the
supplied mapping does not name keeps its stored value unchanged through the
merge. -/
theorem update_plugin_read_modify_write (fetched : PluginData) (enabled : Bool)
    (configurations : List (String × Json)) :
    (update_plugin fetched enabled configurations).rest = fetched.rest
    ∧ (update_plugin fetched enabled configurations).enabled = enabled
    ∧ (fetched.configurations = none →
        (update_plugin fetched enabled configurations).configurations =
          some (dictUpdate [] configurations))
    ∧ (∀ stored, fetched.configurations = some stored →
        (update_plugin fetched enabled configurations).configurations =
          some (dictUpdate stored configurations))
    ∧ (∀ (stored : List (String × Json)) (k : String),
        ¬ k ∈ configurations.map Prod.fst →
        dictGet (dictUpdate stored configurations) k = dictGet stored k) := by
  refine ⟨rfl, rfl, fun h => ?_, fun stored h => ?_, fun stored k h =>
    dictGet_dictUpdate_not_mem k configurations stored h⟩
  · cases hc : configurations with
    | nil => simp [update_plugin, h, hc, dictUpdate]
    | cons p rest => simp [update_plugin, h, hc]
  · cases hc : configurations with
    | nil => simp [update_plugin, h, hc, dictUpdate]
    | cons p rest => simp [update_plugin, h, hc]

theorem update_plugin_read_modify_write_witness :
    (PluginData.mk (some [("block_urls", Json.arr [Json.str "admin"])]) false
        [("pluginName", Json.str "request-block")]).configurations =
      some [("block_urls", Json.arr [Json.str "admin"])]
    ∧ ¬ "block_urls" ∈ ([("blocked_code", Json.num 403)].map
        (Prod.fst (α := String) (β := Json)))
    ∧ (update_plugin
        (PluginData.mk (some [("block_urls", Json.arr [Json.str "admin"])]) false
          [("pluginName", Json.str "request-block")]) true
        [("blocked_code", Json.num 403)]).configurations =
      some (dictUpdate [("block_urls", Json.arr [Json.str "admin"])]
        [("blocked_code", Json.num 403)])
    ∧ dictGet (dictUpdate [("block_urls", Json.arr [Json.str "admin"])]
        [("blocked_code", Json.num 403)]) "block_urls" =
      dictGet [("block_urls", Json.arr [Json.str "admin"])] "block_urls" := by
  refine ⟨rfl, by simp, ?_, ?_⟩
  · exact (update_plugin_read_modify_write
      (PluginData.mk (some [("block_urls", Json.arr [Json.str "admin"])]) false
        [("pluginName", Json.str "request-block")]) true
      [("blocked_code", Json.num 403)]).2.2.2.1
      [("block_urls", Json.arr [Json.str "admin"])] rfl
  · exact (update_plugin_read_modify_write
      (PluginData.mk (some [("block_urls", Json.arr [Json.str "admin"])]) false
        [("pluginName", Json.str "request-block")]) true
      [("blocked_code", Json.num 403)]).2.2.2.2
      [("block_urls", Json.arr [Json.str "admin"])] "block_urls" (by simp)

end HigressOps
